import Mathlib

/-!
Verification of the smallpie backend's orchestration and token-service layer.

This file gives a shallow embedding of the relevant code in
`src/backend/{pipeline,audio,storage,tokens,api}.py` and proves or refutes
the specification's claims about it.  Python dicts are modelled as
association lists in insertion order, timestamps as rationals, machine text
as `String`, and the file system (for the cleanup claims) as an explicit
record of the paths that exist.
-/

namespace Smallpie

/-- Truthiness of Python's `s.strip()`: the stripped string is non-empty
exactly when some character of `s` is not whitespace. -/
def stripTruthy (s : String) : Bool :=
  s.data.any (fun c => !c.isWhitespace)

/-! ### Ordered transcript store (`pipeline.ThreadSafeTranscript`) -/

/-- State of `pipeline.ThreadSafeTranscript`: the `parts` dict mapping a
chunk index to its transcript text.  The dict is modelled as an association
list in insertion order; building it through `add` from the empty store
keeps its keys duplicate-free, exactly as a dict does. -/
structure ThreadSafeTranscript where
  parts : List (Nat × String)
  deriving DecidableEq, Repr

namespace ThreadSafeTranscript

/-- Fresh store made by `ThreadSafeTranscript.__init__` (`self.parts = {}`). -/
def empty : ThreadSafeTranscript := ⟨[]⟩

/-- Embedding of `ThreadSafeTranscript.add`: the dict upsert
`self.parts[index] = text`. -/
def add (s : ThreadSafeTranscript) (index : Nat) (text : String) : ThreadSafeTranscript :=
  if s.parts.any (fun p => p.1 == index) then
    ⟨s.parts.map (fun p => if p.1 == index then (index, text) else p)⟩
  else
    ⟨s.parts ++ [(index, text)]⟩

/-- Dict lookup `self.parts[k]`, partial in Python, `Option`-valued here. -/
def lookup (s : ThreadSafeTranscript) (k : Nat) : Option String :=
  (s.parts.find? (fun p => p.1 == k)).map Prod.snd

/-- Embedding of `sorted(self.parts.keys())`. -/
def sortedKeys (s : ThreadSafeTranscript) : List Nat :=
  (s.parts.map Prod.fst).insertionSort (· ≤ ·)

/-- Embedding of `ThreadSafeTranscript.get_full_transcript`:
`sorted_parts = [self.parts[k] for k in sorted(self.parts.keys())]` followed
by `"\n\n".join(p for p in sorted_parts if p.strip())`. -/
def get_full_transcript (s : ThreadSafeTranscript) : String :=
  let sorted_parts := s.sortedKeys.filterMap s.lookup
  String.intercalate "\n\n" (sorted_parts.filter stripTruthy)

end ThreadSafeTranscript

/-- The error sentinel stored by `pipeline.process_wav_chunk_thread` when
transcription of a chunk raises. -/
def errorSentinel (chunk_index : Nat) : String :=
  "[[ERROR: Failed to transcribe chunk " ++ toString chunk_index ++ "]]"

/-- Embedding of `pipeline.process_wav_chunk_thread` as its effect on the
transcript store: `transcribe_result = some t` models `transcribe_wav_file`
returning `t`, while `none` models it raising, in which case the worker
stores the error sentinel for that chunk. -/
def process_wav_chunk_thread (transcribe_result : Option String) (chunk_index : Nat)
    (store : ThreadSafeTranscript) : ThreadSafeTranscript :=
  match transcribe_result with
  | some t => store.add chunk_index t
  | none => store.add chunk_index (errorSentinel chunk_index)

/-- A batch of completed segments folded into the store through `add`, in
completion order. -/
def applyAdds (ops : List (Nat × String)) (s : ThreadSafeTranscript) : ThreadSafeTranscript :=
  ops.foldl (fun acc op => acc.add op.1 op.2) s

/-- Modelled from the spec's words, for the refinement claim about
`finalize`: fragments enumerated in ascending index order, those empty
after trimming skipped, the rest joined by a blank-line separator. -/
def finalizeSpec (m : Nat → Option String) (n : Nat) : String :=
  String.intercalate "\n\n" (((List.range n).filterMap m).filter stripTruthy)

/-! ### Basic lemmas about the store -/

theorem add_fresh (s : ThreadSafeTranscript) (i : Nat) (t : String)
    (h : ∀ p ∈ s.parts, p.1 ≠ i) : s.add i t = ⟨s.parts ++ [(i, t)]⟩ := by
  have hany : s.parts.any (fun p => p.1 == i) = false := by
    simp only [List.any_eq_false, beq_iff_eq]
    exact h
  simp [ThreadSafeTranscript.add, hany]

theorem applyAdds_disjoint (ops : List (Nat × String)) :
    ∀ s : ThreadSafeTranscript,
      (ops.map Prod.fst).Nodup →
      (∀ p ∈ s.parts, ∀ q ∈ ops, p.1 ≠ q.1) →
      applyAdds ops s = ⟨s.parts ++ ops⟩ := by
  induction ops with
  | nil => intro s _ _; simp [applyAdds]
  | cons op rest ih =>
    intro s hnodup hdisj
    have hfresh : s.add op.1 op.2 = ⟨s.parts ++ [op]⟩ := by
      exact add_fresh s op.1 op.2 (fun p hp => hdisj p hp op (by simp))
    rw [List.map_cons, List.nodup_cons] at hnodup
    obtain ⟨hkey, hnodup'⟩ := hnodup
    have hdisj' : ∀ p ∈ (s.parts ++ [op]), ∀ q ∈ rest, p.1 ≠ q.1 := by
      intro p hp q hq
      rcases List.mem_append.mp hp with hps | hpo
      · exact hdisj p hps q (by simp [hq])
      · have : p = op := by simpa using hpo
        subst this
        intro he
        exact hkey (by exact List.mem_map.mpr ⟨q, hq, he.symm⟩)
    calc applyAdds (op :: rest) s = applyAdds rest (s.add op.1 op.2) := rfl
      _ = applyAdds rest ⟨s.parts ++ [op]⟩ := by rw [hfresh]
      _ = ⟨(s.parts ++ [op]) ++ rest⟩ := ih _ hnodup' hdisj'
      _ = ⟨s.parts ++ op :: rest⟩ := by simp

theorem applyAdds_empty (ops : List (Nat × String)) (h : (ops.map Prod.fst).Nodup) :
    applyAdds ops ThreadSafeTranscript.empty = ⟨ops⟩ := by
  have := applyAdds_disjoint ops ThreadSafeTranscript.empty h (by
    intro p hp
    simp [ThreadSafeTranscript.empty] at hp)
  simpa [ThreadSafeTranscript.empty] using this

theorem lookup_eq_none_iff (s : ThreadSafeTranscript) (k : Nat) :
    s.lookup k = none ↔ k ∉ s.parts.map Prod.fst := by
  unfold ThreadSafeTranscript.lookup
  rw [Option.map_eq_none', List.find?_eq_none]
  constructor
  · intro h hk
    obtain ⟨p, hp, hpk⟩ := List.mem_map.mp hk
    exact h p hp (by simp [hpk])
  · intro h p hp hpk
    exact h (List.mem_map.mpr ⟨p, hp, by simpa using hpk⟩)

theorem lookup_list_eq_some_iff (k : Nat) (v : String) :
    ∀ l : List (Nat × String), (l.map Prod.fst).Nodup →
      ((l.find? (fun p => p.1 == k)).map Prod.snd = some v ↔ (k, v) ∈ l) := by
  intro l
  induction l with
  | nil => intro _; simp
  | cons p rest ih =>
    intro h
    rw [List.map_cons, List.nodup_cons] at h
    obtain ⟨hhead, hrest⟩ := h
    by_cases hk : p.1 = k
    · rw [List.find?_cons_of_pos _ (by simp [hk])]
      constructor
      · intro hv
        have hv2 : p.2 = v := by simpa using hv
        exact List.mem_cons.mpr (Or.inl (Prod.ext_iff.mpr ⟨hk.symm, hv2.symm⟩))
      · intro hv
        rcases List.mem_cons.mp hv with hv | hv
        · have hv2 : v = p.2 := congrArg Prod.snd hv
          simp [hv2]
        · have hmem : k ∈ rest.map Prod.fst := List.mem_map.mpr ⟨(k, v), hv, rfl⟩
          rw [hk] at hhead
          exact absurd hmem hhead
    · rw [List.find?_cons_of_neg _ (by simp [hk])]
      rw [ih hrest]
      constructor
      · intro hv; exact List.mem_cons_of_mem _ hv
      · intro hv
        rcases List.mem_cons.mp hv with hv | hv
        · exact absurd (congrArg Prod.fst hv.symm) (by simpa using hk)
        · exact hv

theorem lookup_eq_some_iff (s : ThreadSafeTranscript) (k : Nat) (v : String)
    (h : (s.parts.map Prod.fst).Nodup) :
    s.lookup k = some v ↔ (k, v) ∈ s.parts :=
  lookup_list_eq_some_iff k v s.parts h

theorem lookup_isSome_iff (s : ThreadSafeTranscript) (k : Nat) :
    (s.lookup k).isSome = true ↔ k ∈ s.parts.map Prod.fst := by
  rcases ho : s.lookup k with _ | v
  · simp only [Option.isSome_none, Bool.false_eq_true, false_iff]
    exact (lookup_eq_none_iff s k).mp ho
  · simp only [Option.isSome_some, true_iff]
    by_contra hk
    rw [← lookup_eq_none_iff s k] at hk
    rw [ho] at hk
    exact Option.noConfusion hk

theorem filterMap_eq_filterMap_filter {α β : Type} (f : α → Option β) (l : List α) :
    l.filterMap f = (l.filter (fun a => (f a).isSome)).filterMap f := by
  induction l with
  | nil => rfl
  | cons a l ih =>
    rcases h : f a with _ | b
    · simp [List.filterMap_cons, List.filter_cons, h, ih]
    · simp [List.filterMap_cons, List.filter_cons, h, ih]

theorem sortedKeys_eq_range_filter (s : ThreadSafeTranscript) (n : Nat)
    (h : (s.parts.map Prod.fst).Nodup) (hn : ∀ k ∈ s.parts.map Prod.fst, k < n) :
    s.sortedKeys = (List.range n).filter (fun k => (s.lookup k).isSome) := by
  have h1 : List.Perm s.sortedKeys (s.parts.map Prod.fst) := List.perm_insertionSort _ _
  apply List.eq_of_perm_of_sorted (r := (· ≤ ·))
  · have hnodupA : s.sortedKeys.Nodup := h1.nodup_iff.mpr h
    have hnodupB : ((List.range n).filter (fun k => (s.lookup k).isSome)).Nodup :=
      (List.nodup_range n).filter _
    apply (List.perm_ext_iff_of_nodup hnodupA hnodupB).mpr
    intro k
    rw [h1.mem_iff]
    simp only [List.mem_filter, List.mem_range]
    constructor
    · intro hk
      exact ⟨hn k hk, (lookup_isSome_iff s k).mpr hk⟩
    · intro hk
      exact (lookup_isSome_iff s k).mp hk.2
  · exact List.sorted_insertionSort _ _
  · exact (List.sorted_le_range n).filter _

theorem get_full_transcript_eq_spec (s : ThreadSafeTranscript) (n : Nat)
    (h : (s.parts.map Prod.fst).Nodup) (hn : ∀ k ∈ s.parts.map Prod.fst, k < n) :
    s.get_full_transcript = finalizeSpec s.lookup n := by
  unfold ThreadSafeTranscript.get_full_transcript finalizeSpec
  rw [sortedKeys_eq_range_filter s n h hn]
  rw [← filterMap_eq_filterMap_filter]

theorem lookup_perm_eq (s s' : ThreadSafeTranscript) (hperm : List.Perm s.parts s'.parts)
    (h : (s.parts.map Prod.fst).Nodup) (k : Nat) : s.lookup k = s'.lookup k := by
  have h' : (s'.parts.map Prod.fst).Nodup := ((hperm.map Prod.fst).nodup_iff).mp h
  rcases ho : s'.lookup k with _ | v
  · rw [lookup_eq_none_iff] at ho ⊢
    intro hk
    exact ho ((hperm.map Prod.fst).mem_iff.mp hk)
  · rw [lookup_eq_some_iff s' k v h'] at ho
    exact (lookup_eq_some_iff s k v h).mpr (hperm.mem_iff.mpr ho)

/-- C4: built from any batch of `add` calls with distinct indices, in any
completion order, `get_full_transcript` is the same string, namely the
fragments enumerated in ascending index order, those empty after trimming
skipped, the rest joined by the blank-line separator `"\n\n"`. -/
theorem finalize_ascending_order_independent (ops ops' : List (Nat × String)) (n : Nat)
    (hperm : List.Perm ops ops') (h : (ops.map Prod.fst).Nodup)
    (hn : ∀ k ∈ ops.map Prod.fst, k < n) :
    (applyAdds ops ThreadSafeTranscript.empty).get_full_transcript
        = (applyAdds ops' ThreadSafeTranscript.empty).get_full_transcript
    ∧ (applyAdds ops ThreadSafeTranscript.empty).get_full_transcript
        = finalizeSpec (applyAdds ops ThreadSafeTranscript.empty).lookup n := by
  have h' : (ops'.map Prod.fst).Nodup := ((hperm.map Prod.fst).nodup_iff).mp h
  have hn' : ∀ k ∈ ops'.map Prod.fst, k < n := by
    intro k hk
    exact hn k ((hperm.map Prod.fst).mem_iff.mpr hk)
  rw [applyAdds_empty ops h, applyAdds_empty ops' h']
  constructor
  · rw [get_full_transcript_eq_spec ⟨ops⟩ n h hn, get_full_transcript_eq_spec ⟨ops'⟩ n h' hn']
    have hl : ∀ k, ThreadSafeTranscript.lookup ⟨ops⟩ k = ThreadSafeTranscript.lookup ⟨ops'⟩ k :=
      lookup_perm_eq ⟨ops⟩ ⟨ops'⟩ hperm h
    unfold finalizeSpec
    rw [List.filterMap_congr (fun k _ => hl k)]
  · exact get_full_transcript_eq_spec ⟨ops⟩ n h hn

/-- Witness for C4 at a concrete out-of-order completion. -/
theorem finalize_ascending_order_independent_witness :
    (List.Perm [((2 : Nat), "world"), (0, "hello")] [((0 : Nat), "hello"), (2, "world")]
      ∧ ([((2 : Nat), "world"), (0, "hello")].map Prod.fst).Nodup
      ∧ ∀ k ∈ [((2 : Nat), "world"), (0, "hello")].map Prod.fst, k < 3)
    ∧ ((applyAdds [((2 : Nat), "world"), (0, "hello")] ThreadSafeTranscript.empty).get_full_transcript
        = (applyAdds [((0 : Nat), "hello"), (2, "world")] ThreadSafeTranscript.empty).get_full_transcript
      ∧ (applyAdds [((2 : Nat), "world"), (0, "hello")] ThreadSafeTranscript.empty).get_full_transcript
        = finalizeSpec (applyAdds [((2 : Nat), "world"), (0, "hello")] ThreadSafeTranscript.empty).lookup 3) :=
  ⟨⟨List.Perm.swap _ _ _, by decide, by decide⟩,
    finalize_ascending_order_independent _ _ 3 (List.Perm.swap _ _ _) (by decide) (by decide)⟩

/-- C9: `add` is an idempotent upsert keyed by index: a second `add` at the
same index overwrites rather than duplicates, the store's size counts
unique indices only, and the fragments entering `get_full_transcript` are
therefore those of unique indices. -/
theorem add_upsert_idempotent (s : ThreadSafeTranscript) (i : Nat) (t₁ t₂ : String) :
    ((s.add i t₁).add i t₂ = s.add i t₂)
    ∧ ((s.add i t₂).parts.length
        = if i ∈ s.parts.map Prod.fst then s.parts.length else s.parts.length + 1)
    ∧ (((s.add i t₁).add i t₂).get_full_transcript = (s.add i t₂).get_full_transcript) := by
  have hmain : (s.add i t₁).add i t₂ = s.add i t₂ := by
    unfold ThreadSafeTranscript.add
    by_cases h : s.parts.any (fun p => p.1 == i) = true
    · rw [if_pos h]
      have h2 : (s.parts.map (fun p => if p.1 == i then (i, t₁) else p)).any
          (fun p => p.1 == i) = true := by
        rw [List.any_eq_true] at h ⊢
        obtain ⟨p, hp, hpi⟩ := h
        refine ⟨(i, t₁), List.mem_map.mpr ⟨p, hp, by simp [hpi]⟩, by simp⟩
      rw [if_pos h2, if_pos h]
      congr 1
      rw [List.map_map]
      apply List.map_congr_left
      intro p _
      by_cases hp : p.1 = i
      · simp [Function.comp, hp]
      · simp [Function.comp, hp]
    · rw [if_neg h, if_neg h]
      have h2 : ((s.parts ++ [(i, t₁)]).any (fun p => p.1 == i)) = true := by
        rw [List.any_eq_true]
        exact ⟨(i, t₁), by simp, by simp⟩
      rw [if_pos h2]
      congr 1
      rw [List.map_append]
      simp only [Bool.not_eq_true] at h
      rw [List.any_eq_false] at h
      have h3 : s.parts.map (fun p => if p.1 == i then (i, t₂) else p) = s.parts := by
        conv_rhs => rw [← List.map_id s.parts]
        apply List.map_congr_left
        intro p hp
        have hne : (p.1 == i) = false := by simpa using h p hp
        simp [hne]
      rw [h3]
      simp
  refine ⟨hmain, ?_, by rw [hmain]⟩
  unfold ThreadSafeTranscript.add
  by_cases h : s.parts.any (fun p => p.1 == i) = true
  · rw [if_pos h]
    have hmem : i ∈ s.parts.map Prod.fst := by
      rw [List.any_eq_true] at h
      obtain ⟨p, hp, hpi⟩ := h
      exact List.mem_map.mpr ⟨p, hp, by simpa using hpi⟩
    simp [hmem]
  · rw [if_neg h]
    have hmem : i ∉ s.parts.map Prod.fst := by
      intro hk
      obtain ⟨p, hp, hpi⟩ := List.mem_map.mp hk
      simp only [Bool.not_eq_true] at h
      rw [List.any_eq_false] at h
      exact h p hp (by simp [hpi])
    simp [hmem]

/-- C1 amended: an error-sentinel fragment is not excluded from the
concatenation — only fragments that are empty after trimming are skipped.
After segment 1's transcription fails, the finalized transcript is
fragments 0 and 2 with the non-blank sentinel joined between them by the
blank-line separator. -/
theorem error_sentinel_in_finalized (f₀ f₂ : String)
    (h₀ : stripTruthy f₀ = true) (h₂ : stripTruthy f₂ = true) :
    (process_wav_chunk_thread none 1
      ((ThreadSafeTranscript.empty.add 0 f₀).add 2 f₂)).get_full_transcript
      = String.intercalate "\n\n" [f₀, errorSentinel 1, f₂] := by
  have hbs : stripTruthy (errorSentinel 1) = true := by decide
  have hstore : process_wav_chunk_thread none 1
      ((ThreadSafeTranscript.empty.add 0 f₀).add 2 f₂)
      = ⟨[(0, f₀), (2, f₂), (1, errorSentinel 1)]⟩ := by
    simp [process_wav_chunk_thread, ThreadSafeTranscript.add, ThreadSafeTranscript.empty]
  rw [hstore]
  unfold ThreadSafeTranscript.get_full_transcript
  have hkeys : ThreadSafeTranscript.sortedKeys ⟨[(0, f₀), (2, f₂), (1, errorSentinel 1)]⟩
      = [0, 1, 2] := by
    show List.insertionSort (· ≤ ·) [0, 2, 1] = [0, 1, 2]
    decide
  rw [hkeys]
  have hl0 : ThreadSafeTranscript.lookup ⟨[(0, f₀), (2, f₂), (1, errorSentinel 1)]⟩ 0 = some f₀ := rfl
  have hl1 : ThreadSafeTranscript.lookup ⟨[(0, f₀), (2, f₂), (1, errorSentinel 1)]⟩ 1
      = some (errorSentinel 1) := rfl
  have hl2 : ThreadSafeTranscript.lookup ⟨[(0, f₀), (2, f₂), (1, errorSentinel 1)]⟩ 2 = some f₂ := rfl
  simp only [List.filterMap_cons, List.filterMap_nil, hl0, hl1, hl2]
  simp [List.filter_cons, h₀, h₂, hbs]

/-- C1 counterexample: on a concrete run where segment 1's transcription
raised, the finalized transcript contains the error-sentinel text between
fragments 0 and 2, so the sentinel fragment is not excluded. -/
theorem error_sentinel_included_counterexample :
    ((process_wav_chunk_thread none 1
        ((ThreadSafeTranscript.empty.add 0 "hello").add 2 "world")).get_full_transcript
      = "hello\n\n[[ERROR: Failed to transcribe chunk 1]]\n\nworld")
    ∧ ((process_wav_chunk_thread none 1
        ((ThreadSafeTranscript.empty.add 0 "hello").add 2 "world")).get_full_transcript
      ≠ "hello\n\nworld") := by
  constructor
  · decide
  · decide

/-- Witness for the amended C1 theorem at concrete non-blank fragments. -/
theorem error_sentinel_in_finalized_witness :
    (stripTruthy "hi" = true ∧ stripTruthy "yo" = true)
    ∧ (process_wav_chunk_thread none 1
        ((ThreadSafeTranscript.empty.add 0 "hi").add 2 "yo")).get_full_transcript
      = String.intercalate "\n\n" ["hi", errorSentinel 1, "yo"] :=
  ⟨⟨by decide, by decide⟩, error_sentinel_in_finalized "hi" "yo" (by decide) (by decide)⟩

/-! ### Storage and terminal cleanup (`storage.py`, tail of
`pipeline.live_transcription_orchestrator`) -/

/-- File-system state relevant to one live session: the per-segment part
files and the saved meeting folders that currently exist. -/
structure FsState where
  partFiles : List String
  meetingFolders : List String
  deriving DecidableEq, Repr

/-- Embedding of `storage.save_meeting_outputs`: creates the meeting folder
(holding `transcript.txt` and `analysis.txt`) and returns its path. -/
def save_meeting_outputs (fs : FsState) (folder : String) : FsState :=
  if folder ∈ fs.meetingFolders then fs
  else { fs with meetingFolders := fs.meetingFolders ++ [folder] }

/-- Embedding of `storage.cleanup_meeting_folder`: `shutil.rmtree` on the
folder, ignoring a missing folder. -/
def cleanup_meeting_folder (fs : FsState) (folder : String) : FsState :=
  { fs with meetingFolders := fs.meetingFolders.filter (fun f => f != folder) }

/-- Embedding of the finalization tail of
`pipeline.live_transcription_orchestrator` (from reading the finalized
transcript through the `finally` block).  A blank transcript skips analysis
and saving; otherwise the outputs are saved — under the normal name on the
success path, under the `FAILED_`-prefixed name when the analysis call
raises — and the `finally` block then unlinks every session part file and,
because `folder` is set, calls `cleanup_meeting_folder` on the saved
folder.  The best-effort email send has no file-system effect. -/
def orchestrator_finalize_and_cleanup (fs : FsState) (session_parts : List String)
    (transcript : String) (folder failedFolder : String) (analysis_fails : Bool) : FsState :=
  if stripTruthy transcript = false then
    { fs with partFiles := fs.partFiles.filter (fun p => !session_parts.contains p) }
  else
    let f := if analysis_fails then failedFolder else folder
    let fs1 := save_meeting_outputs fs f
    cleanup_meeting_folder
      { fs1 with partFiles := fs1.partFiles.filter (fun p => !session_parts.contains p) } f

theorem mem_cleanup_iff (fs : FsState) (f g : String) :
    g ∈ (cleanup_meeting_folder fs f).meetingFolders ↔ g ∈ fs.meetingFolders ∧ g ≠ f := by
  simp [cleanup_meeting_folder, List.mem_filter]

theorem mem_save_iff (fs : FsState) (f g : String) :
    g ∈ (save_meeting_outputs fs f).meetingFolders ↔ g ∈ fs.meetingFolders ∨ g = f := by
  unfold save_meeting_outputs
  by_cases hf : f ∈ fs.meetingFolders
  · rw [if_pos hf]
    constructor
    · intro hg; exact Or.inl hg
    · rintro (hg | hg)
      · exact hg
      · rw [hg]; exact hf
  · rw [if_neg hf]
    simp

theorem save_partFiles (fs : FsState) (f : String) :
    (save_meeting_outputs fs f).partFiles = fs.partFiles := by
  unfold save_meeting_outputs
  by_cases hf : f ∈ fs.meetingFolders
  · rw [if_pos hf]
  · rw [if_neg hf]

/-- C2 counterexample: a concrete session whose non-blank transcript was
saved during finalization ends with no meeting folder on disk — the
terminal cleanup removed the folder the storage collaborator had just
written, so the persisted results do not survive the session's cleanup. -/
theorem saved_folder_removed_counterexample :
    (orchestrator_finalize_and_cleanup ⟨["p0"], []⟩ ["p0"] "hi" "meeting_1" "FAILED_meeting_1" false
      = ⟨[], []⟩)
    ∧ ("meeting_1" ∉ (orchestrator_finalize_and_cleanup ⟨["p0"], []⟩ ["p0"] "hi" "meeting_1"
        "FAILED_meeting_1" false).meetingFolders) := by
  constructor
  · decide
  · decide

theorem not_mem_cleanup_save (fs : FsState) (F g : String) (P : List String)
    (hg : g ∉ fs.meetingFolders) :
    g ∉ (cleanup_meeting_folder { save_meeting_outputs fs F with partFiles := P } F).meetingFolders := by
  intro hmem
  rw [mem_cleanup_iff] at hmem
  obtain ⟨hmem1, hne⟩ := hmem
  have hmem2 : g ∈ (save_meeting_outputs fs F).meetingFolders := hmem1
  rw [mem_save_iff] at hmem2
  rcases hmem2 with hm | hm
  · exact hg hm
  · exact hne hm

theorem cleanup_save_partFiles (fs : FsState) (F : String) (P : List String) :
    (cleanup_meeting_folder { save_meeting_outputs fs F with partFiles := P } F).partFiles = P := rfl

/-- C2 amended: terminal cleanup deletes the session's transient
per-segment part files and, in addition, the meeting folder persisted
during finalization (on the success and on the analysis-failure path
alike), so the saved transcript/analysis folder no longer exists once the
session's cleanup completes. -/
theorem cleanup_removes_saved_folder (fs : FsState) (session_parts : List String)
    (transcript : String) (folder failedFolder : String) (analysis_fails : Bool)
    (h : folder ∉ fs.meetingFolders) (h2 : failedFolder ∉ fs.meetingFolders) :
    (folder ∉ (orchestrator_finalize_and_cleanup fs session_parts transcript folder failedFolder
        analysis_fails).meetingFolders)
    ∧ (failedFolder ∉ (orchestrator_finalize_and_cleanup fs session_parts transcript folder
        failedFolder analysis_fails).meetingFolders)
    ∧ ((orchestrator_finalize_and_cleanup fs session_parts transcript folder failedFolder
        analysis_fails).partFiles
      = fs.partFiles.filter (fun p => !session_parts.contains p)) := by
  simp only [orchestrator_finalize_and_cleanup]
  by_cases hb : stripTruthy transcript = false
  · rw [if_pos hb]
    exact ⟨h, h2, rfl⟩
  · rw [if_neg hb]
    by_cases ha : analysis_fails = true
    · rw [if_pos ha]
      exact ⟨not_mem_cleanup_save fs failedFolder folder _ h,
        not_mem_cleanup_save fs failedFolder failedFolder _ h2,
        by rw [cleanup_save_partFiles, save_partFiles]⟩
    · rw [if_neg ha]
      exact ⟨not_mem_cleanup_save fs folder folder _ h,
        not_mem_cleanup_save fs folder failedFolder _ h2,
        by rw [cleanup_save_partFiles, save_partFiles]⟩

/-- Witness for the amended C2 theorem at a concrete session. -/
theorem cleanup_removes_saved_folder_witness :
    ("m1" ∉ (⟨["p0"], ["other"]⟩ : FsState).meetingFolders
      ∧ "FAILED_m1" ∉ (⟨["p0"], ["other"]⟩ : FsState).meetingFolders)
    ∧ (("m1" ∉ (orchestrator_finalize_and_cleanup ⟨["p0"], ["other"]⟩ ["p0"] "hi" "m1" "FAILED_m1"
          false).meetingFolders)
      ∧ ("FAILED_m1" ∉ (orchestrator_finalize_and_cleanup ⟨["p0"], ["other"]⟩ ["p0"] "hi" "m1"
          "FAILED_m1" false).meetingFolders)
      ∧ ((orchestrator_finalize_and_cleanup ⟨["p0"], ["other"]⟩ ["p0"] "hi" "m1" "FAILED_m1"
          false).partFiles
        = (⟨["p0"], ["other"]⟩ : FsState).partFiles.filter (fun p => !(["p0"].contains p)))) :=
  ⟨⟨by decide, by decide⟩,
    cleanup_removes_saved_folder ⟨["p0"], ["other"]⟩ ["p0"] "hi" "m1" "FAILED_m1" false
      (by decide) (by decide)⟩

/-! ### Segment slicing (`audio.slice_wav_to_chunks`,
`audio.transcribe_wav_file`) -/

/-- Loop of `audio.slice_wav_to_chunks`, as the list of `[start, end)`
windows it cuts: while `start < duration`, the window end is
`min(start + chunk_seconds, duration)`; a window shorter than `0.1`
seconds breaks the loop without producing a chunk, otherwise the window is
emitted and `start` advances to its end.  Durations are modelled as
rationals. -/
def sliceLoop (duration chunk_seconds : ℚ) (start : ℚ) : List (ℚ × ℚ) :=
  if h : start < duration then
    if h2 : min (start + chunk_seconds) duration - start < 1/10 then []
    else (start, min (start + chunk_seconds) duration)
      :: sliceLoop duration chunk_seconds (min (start + chunk_seconds) duration)
  else []
termination_by (⌈(duration - start) * 10⌉).toNat
decreasing_by
  have hle : (1 : ℚ)/10 ≤ min (start + chunk_seconds) duration - start := not_lt.mp h2
  have hmin : min (start + chunk_seconds) duration ≤ duration := min_le_right _ _
  have hq : (duration - min (start + chunk_seconds) duration) * 10
      ≤ (duration - start) * 10 - 1 := by linarith
  have hceil : ⌈(duration - min (start + chunk_seconds) duration) * 10⌉
      ≤ ⌈(duration - start) * 10⌉ - 1 := by
    have h3 : ((duration - start) * 10 - 1 : ℚ) = (duration - start) * 10 - (1 : ℤ) := by
      push_cast
      ring
    have h4 := Int.ceil_le_ceil (α := ℚ) hq
    rw [h3, Int.ceil_sub_int] at h4
    exact h4
  have hpos : 0 < ⌈(duration - start) * 10⌉ := Int.ceil_pos.mpr (by linarith)
  omega

/-- Embedding of `audio.slice_wav_to_chunks` at the level of the windows it
extracts: a zero readable duration yields no chunks at all, otherwise the
slicing loop runs from `start = 0`. -/
def slice_wav_to_chunks (duration chunk_seconds : ℚ) : List (ℚ × ℚ) :=
  if duration = 0 then [] else sliceLoop duration chunk_seconds 0

/-- The windows `audio.transcribe_wav_file` dispatches to
`_transcribe_single_chunk`: it aborts on a zero duration and otherwise
transcribes exactly the chunks `slice_wav_to_chunks` returned. -/
def transcribe_wav_file_windows (duration chunk_seconds : ℚ) : List (ℚ × ℚ) :=
  if duration = 0 then [] else slice_wav_to_chunks duration chunk_seconds

theorem sliceLoop_min_duration (duration chunk_seconds start : ℚ) :
    ∀ w ∈ sliceLoop duration chunk_seconds start, 1/10 ≤ w.2 - w.1 := by
  by_cases h : start < duration
  · unfold sliceLoop
    rw [dif_pos h]
    by_cases h2 : min (start + chunk_seconds) duration - start < 1/10
    · rw [dif_pos h2]
      simp
    · rw [dif_neg h2]
      intro w hw
      rcases List.mem_cons.mp hw with hw | hw
      · rw [hw]
        exact not_lt.mp h2
      · exact sliceLoop_min_duration duration chunk_seconds _ w hw
  · unfold sliceLoop
    rw [dif_neg h]
    simp
termination_by (⌈(duration - start) * 10⌉).toNat
decreasing_by
  have hle : (1 : ℚ)/10 ≤ min (start + chunk_seconds) duration - start := not_lt.mp h2
  have hmin : min (start + chunk_seconds) duration ≤ duration := min_le_right _ _
  have hq : (duration - min (start + chunk_seconds) duration) * 10
      ≤ (duration - start) * 10 - 1 := by linarith
  have hceil : ⌈(duration - min (start + chunk_seconds) duration) * 10⌉
      ≤ ⌈(duration - start) * 10⌉ - 1 := by
    have h3 : ((duration - start) * 10 - 1 : ℚ) = (duration - start) * 10 - (1 : ℤ) := by
      push_cast
      ring
    have h4 := Int.ceil_le_ceil (α := ℚ) hq
    rw [h3, Int.ceil_sub_int] at h4
    exact h4
  have hpos : 0 < ⌈(duration - start) * 10⌉ := Int.ceil_pos.mpr (by linarith)
  omega

/-- C6: a window below `0.1` seconds is never among the chunks extraction
produces, and since `transcribe_wav_file` transcribes exactly the produced
chunks, no transcription work is dispatched for such a window. -/
theorem short_window_not_dispatched (duration chunk_seconds : ℚ) :
    (∀ w ∈ slice_wav_to_chunks duration chunk_seconds, ¬ (w.2 - w.1 < 1/10))
    ∧ (∀ w ∈ transcribe_wav_file_windows duration chunk_seconds, ¬ (w.2 - w.1 < 1/10)) := by
  have hs : ∀ w ∈ slice_wav_to_chunks duration chunk_seconds, ¬ (w.2 - w.1 < 1/10) := by
    unfold slice_wav_to_chunks
    by_cases hd : duration = 0
    · rw [if_pos hd]
      simp
    · rw [if_neg hd]
      intro w hw
      exact not_lt.mpr (sliceLoop_min_duration duration chunk_seconds 0 w hw)
  refine ⟨hs, ?_⟩
  unfold transcribe_wav_file_windows
  by_cases hd : duration = 0
  · rw [if_pos hd]
    simp
  · rw [if_neg hd]
    exact hs

/-- Witness for C6: a concrete produced window, of duration at least 0.1s. -/
theorem short_window_not_dispatched_witness :
    ((0 : ℚ), (1 : ℚ)) ∈ slice_wav_to_chunks 1 1
    ∧ ¬ (((0 : ℚ), (1 : ℚ)).2 - ((0 : ℚ), (1 : ℚ)).1 < 1/10) := by
  have hmin : min ((0 : ℚ) + 1) 1 = 1 := by simp
  have e1 : sliceLoop 1 1 1 = [] := by
    unfold sliceLoop
    rw [dif_neg (by norm_num : ¬ (1 : ℚ) < 1)]
  have e0 : sliceLoop 1 1 0 = [((0 : ℚ), (1 : ℚ))] := by
    unfold sliceLoop
    rw [dif_pos (by norm_num : (0 : ℚ) < 1)]
    rw [dif_neg (by rw [hmin]; norm_num)]
    rw [hmin, e1]
  have hmem : ((0 : ℚ), (1 : ℚ)) ∈ slice_wav_to_chunks 1 1 := by
    unfold slice_wav_to_chunks
    rw [if_neg (by norm_num : ¬ (1 : ℚ) = 0), e0]
    simp
  exact ⟨hmem, (short_window_not_dispatched 1 1).1 _ hmem⟩

/-! ### Token service (`tokens.py`, `api.py`) -/

/-- Configuration of `tokens.RateLimiter` (`max_calls`, `window_seconds`);
timestamps are modelled as rationals. -/
structure RateLimiter where
  max_calls : Nat
  window_seconds : ℚ
  deriving DecidableEq, Repr

namespace RateLimiter

/-- Embedding of `RateLimiter.allow` acting on one client's bucket (the
deque `self.buckets[key]`): timestamps strictly older than
`now - window_seconds` are popped from the left, the call is denied if the
bucket still holds at least `max_calls` timestamps, and otherwise `now` is
appended.  Returns the decision together with the updated bucket. -/
def allow (rl : RateLimiter) (bucket : List ℚ) (now : ℚ) : Bool × List ℚ :=
  let cutoff := now - rl.window_seconds
  let dq := bucket.dropWhile (fun t => decide (t < cutoff))
  if rl.max_calls ≤ dq.length then (false, dq)
  else (true, dq ++ [now])

end RateLimiter

/-- A sequence of `allow` calls against one bucket, keeping the bucket the
limiter stores after each call. -/
def runAllow (rl : RateLimiter) (bucket : List ℚ) (times : List ℚ) : List ℚ :=
  times.foldl (fun b t => (rl.allow b t).2) bucket

theorem sorted_dropWhile_lt_eq_filter (c : ℚ) :
    ∀ l : List ℚ, List.Sorted (· ≤ ·) l →
      l.dropWhile (fun t => decide (t < c)) = l.filter (fun t => decide (c ≤ t)) := by
  intro l
  induction l with
  | nil => intro _; rfl
  | cons a l ih =>
    intro hs
    rw [List.sorted_cons] at hs
    obtain ⟨ha, hl⟩ := hs
    by_cases hac : a < c
    · rw [List.dropWhile_cons_of_pos (by simpa using hac)]
      rw [List.filter_cons_of_neg (by simpa using not_le.mpr hac)]
      exact ih hl
    · rw [List.dropWhile_cons_of_neg (by simpa using hac)]
      rw [List.filter_cons_of_pos (by simpa using not_lt.mp hac)]
      congr 1
      have : ∀ t ∈ l, (fun t => decide (c ≤ t)) t = true := by
        intro t ht
        simpa using le_trans (not_lt.mp hac) (ha t ht)
      exact (List.filter_eq_self.mpr this).symm

theorem allow_length_le (rl : RateLimiter) (bucket : List ℚ) (now : ℚ)
    (hlen : bucket.length ≤ rl.max_calls) :
    (rl.allow bucket now).2.length ≤ rl.max_calls := by
  simp only [RateLimiter.allow]
  have hd : (bucket.dropWhile (fun t => decide (t < now - rl.window_seconds))).length
      ≤ bucket.length := (List.dropWhile_sublist _).length_le
  by_cases hfull : rl.max_calls
      ≤ (bucket.dropWhile (fun t => decide (t < now - rl.window_seconds))).length
  · rw [if_pos hfull]
    exact le_trans hd hlen
  · rw [if_neg hfull]
    simp only [List.length_append, List.length_cons, List.length_nil]
    omega

/-- C5: for a bucket whose timestamps are in nondecreasing order and within
the size invariant, `allow` denies exactly when the number of timestamps
still inside the trailing window already equals `max_calls`; the updated
bucket never exceeds `max_calls`; a whole run of calls starting from an
empty bucket never exceeds `max_calls`; and once every recorded timestamp
has fallen out of the window a new call is allowed again. -/
theorem rate_limiter_sliding_window (rl : RateLimiter) (bucket : List ℚ) (now : ℚ)
    (times : List ℚ)
    (hs : List.Sorted (· ≤ ·) bucket) (hlen : bucket.length ≤ rl.max_calls) :
    ((rl.allow bucket now).1 = false ↔
      (bucket.filter (fun t => decide (now - rl.window_seconds ≤ t))).length = rl.max_calls)
    ∧ (rl.allow bucket now).2.length ≤ rl.max_calls
    ∧ (runAllow rl [] times).length ≤ rl.max_calls
    ∧ ((∀ t ∈ bucket, t < now - rl.window_seconds) → 1 ≤ rl.max_calls →
        (rl.allow bucket now).1 = true) := by
  have hdrop := sorted_dropWhile_lt_eq_filter (now - rl.window_seconds) bucket hs
  refine ⟨?_, allow_length_le rl bucket now hlen, ?_, ?_⟩
  · simp only [RateLimiter.allow]
    rw [hdrop]
    have hfl : (bucket.filter (fun t => decide (now - rl.window_seconds ≤ t))).length
        ≤ bucket.length := List.length_filter_le _ _
    by_cases hfull : rl.max_calls
        ≤ (bucket.filter (fun t => decide (now - rl.window_seconds ≤ t))).length
    · rw [if_pos hfull]
      simp only [true_iff]
      omega
    · rw [if_neg hfull]
      simp only [Bool.true_eq_false, false_iff]
      omega
  · have hgen : ∀ ts : List ℚ, ∀ b : List ℚ, b.length ≤ rl.max_calls →
        (runAllow rl b ts).length ≤ rl.max_calls := by
      intro ts
      induction ts with
      | nil => intro b hb; exact hb
      | cons t ts ih =>
        intro b hb
        exact ih _ (allow_length_le rl b t hb)
    exact hgen times [] (by simp)
  · intro hall hone
    simp only [RateLimiter.allow]
    have hnil : bucket.dropWhile (fun t => decide (t < now - rl.window_seconds)) = [] := by
      rw [hdrop]
      rw [List.filter_eq_nil_iff]
      intro t ht
      simpa using not_le.mpr (hall t ht)
    rw [if_neg (by rw [hnil]; simp only [List.length_nil]; omega)]

/-- Witness for C5 at a concrete sorted, full bucket. -/
theorem rate_limiter_sliding_window_witness :
    (List.Sorted (· ≤ ·) [(1 : ℚ), 2]
      ∧ ([(1 : ℚ), 2]).length ≤ (⟨2, 10⟩ : RateLimiter).max_calls)
    ∧ ((((⟨2, 10⟩ : RateLimiter).allow [(1 : ℚ), 2] 4).1 = false ↔
        ([(1 : ℚ), 2].filter
          (fun t => decide ((4 : ℚ) - (⟨2, 10⟩ : RateLimiter).window_seconds ≤ t))).length
          = (⟨2, 10⟩ : RateLimiter).max_calls)
      ∧ ((⟨2, 10⟩ : RateLimiter).allow [(1 : ℚ), 2] 4).2.length
          ≤ (⟨2, 10⟩ : RateLimiter).max_calls
      ∧ (runAllow ⟨2, 10⟩ [] [(1 : ℚ), 2, 3]).length ≤ (⟨2, 10⟩ : RateLimiter).max_calls
      ∧ ((∀ t ∈ [(1 : ℚ), 2], t < (4 : ℚ) - (⟨2, 10⟩ : RateLimiter).window_seconds) →
          1 ≤ (⟨2, 10⟩ : RateLimiter).max_calls →
          ((⟨2, 10⟩ : RateLimiter).allow [(1 : ℚ), 2] 4).1 = true)) :=
  ⟨⟨by decide, by decide⟩,
    rate_limiter_sliding_window ⟨2, 10⟩ [1, 2] 4 [1, 2, 3] (by decide) (by decide)⟩

/-- Decoded token payload, the dict built in `tokens.issue_token`. -/
structure TokenPayload where
  jti : String
  session_id : String
  scope : String
  aud : String
  iat : Int
  exp : Int
  deriving DecidableEq, Repr

/-- An `HTTPException(status_code, detail)` raised by the token service. -/
structure HttpError where
  status : Nat
  detail : String
  deriving DecidableEq, Repr

/-- State of `tokens.TokenRegistry`: the `active` dict from `jti` to the
registered payload, as an association list in insertion order. -/
structure TokenRegistry where
  active : List (String × TokenPayload)
  deriving DecidableEq, Repr

namespace TokenRegistry

/-- Embedding of `TokenRegistry.add`: the dict upsert
`self.active[jti] = payload`. -/
def add (reg : TokenRegistry) (jti : String) (payload : TokenPayload) : TokenRegistry :=
  if reg.active.any (fun p => p.1 == jti) then
    ⟨reg.active.map (fun p => if p.1 == jti then (jti, payload) else p)⟩
  else ⟨reg.active ++ [(jti, payload)]⟩

/-- Embedding of `TokenRegistry.is_active`: an unknown `jti` is inactive; a
registered payload past its `exp` is popped and reported inactive; an
unexpired registered payload is active.  Returns the verdict and the
possibly updated registry. -/
def is_active (reg : TokenRegistry) (jti : String) (now : Int) : Bool × TokenRegistry :=
  match reg.active.find? (fun p => p.1 == jti) with
  | none => (false, reg)
  | some pr =>
    if pr.2.exp < now then (false, ⟨reg.active.filter (fun p => p.1 != jti)⟩)
    else (true, reg)

/-- Embedding of `TokenRegistry.revoke_jti`. -/
def revoke_jti (reg : TokenRegistry) (jti : String) : TokenRegistry :=
  ⟨reg.active.filter (fun p => p.1 != jti)⟩

/-- Embedding of `TokenRegistry.revoke_session`. -/
def revoke_session (reg : TokenRegistry) (session_id : String) : TokenRegistry :=
  ⟨reg.active.filter (fun p => p.2.session_id != session_id)⟩

end TokenRegistry

/-- Abstract serialization collaborators used by `tokens._sign` and
`tokens._verify`.  `payloadEncode` stands for
`_b64url(json.dumps(payload, sort_keys=True))`, `b64decode` for
`_b64url_decode`, `jsonDecode` for `json.loads` on decoded bytes (`none`
models `JSONDecodeError`), `macSign` for
`hmac.new(SIGNING_KEY, ., sha256).digest()` under the fixed signing key,
and `sigEncode` for `_b64url` on a digest.  Byte strings are modelled as
`String`. -/
structure Codec where
  payloadEncode : TokenPayload → String
  b64decode : String → String
  jsonDecode : String → Option TokenPayload
  macSign : String → String
  sigEncode : String → String

/-- Embedding of `tokens._sign`: the signed token
`payload_b64 ++ "." ++ _b64url(hmac(payload_b64))`. -/
def signToken (c : Codec) (payload : TokenPayload) : String :=
  let payload_b64 := c.payloadEncode payload
  payload_b64 ++ "." ++ c.sigEncode (c.macSign payload_b64)

/-- Embedding of `tokens._verify`: split the token at its first dot
(`token.split(".", 1)`, raising on a missing dot), recompute the MAC of the
payload half, compare it with the decoded signature half
(`hmac.compare_digest`), then decode the payload; the same
`HTTPException`s as the source on each failure. -/
def verifyParse (c : Codec) (token : String) : Except HttpError TokenPayload :=
  match token.data.dropWhile (fun ch => ch != '.') with
  | [] => .error ⟨401, "Invalid token format"⟩
  | _ :: restChars =>
    let payload_b64 := String.mk (token.data.takeWhile (fun ch => ch != '.'))
    let sig_b64 := String.mk restChars
    if c.macSign payload_b64 = c.b64decode sig_b64 then
      match c.jsonDecode (c.b64decode payload_b64) with
      | none => .error ⟨401, "Invalid token payload"⟩
      | some payload => .ok payload
    else .error ⟨401, "Invalid token signature"⟩

/-- The checks of `tokens.validate_token` that run after the rate-limit
charge, in source order: signature and payload parsing, audience, scope,
expiry against `int(time.time())`, a falsy `jti`, and finally the registry
activity check (which may pop an expired entry).  Returns the outcome and
the updated registry. -/
def validateChecks (c : Codec) (token expected_scope : String) (reg : TokenRegistry)
    (nowI : Int) : Except HttpError TokenPayload × TokenRegistry :=
  match verifyParse c token with
  | .error e => (.error e, reg)
  | .ok payload =>
    if payload.aud ≠ "smallpie" then (.error ⟨401, "Invalid audience"⟩, reg)
    else if payload.scope ≠ expected_scope then (.error ⟨401, "Invalid scope"⟩, reg)
    else if payload.exp < nowI then (.error ⟨401, "Token expired"⟩, reg)
    else if payload.jti = "" then (.error ⟨401, "Token inactive"⟩, reg)
    else
      let ia := reg.is_active payload.jti nowI
      if ia.1 then (.ok payload, ia.2) else (.error ⟨401, "Token inactive"⟩, ia.2)

/-- Result of one `tokens.validate_token` call: the outcome, the updated
verify-limiter bucket of this client, and the updated registry. -/
structure ValidateResult where
  result : Except HttpError TokenPayload
  bucket : List ℚ
  registry : TokenRegistry
  deriving Repr

/-- Embedding of `tokens.validate_token`: the client's verify-limiter
bucket is charged first; a denied call fails with the 429 error, otherwise
the checks of `validateChecks` run at `int(time.time())` (modelled as
`⌊now⌋`). -/
def validate_token (c : Codec) (vl : RateLimiter) (token expected_scope : String)
    (reg : TokenRegistry) (bucket : List ℚ) (now : ℚ) : ValidateResult :=
  let pr := vl.allow bucket now
  if pr.1 then
    let co := validateChecks c token expected_scope reg ⌊now⌋
    ⟨co.1, pr.2, co.2⟩
  else ⟨.error ⟨429, "Rate limit exceeded"⟩, pr.2, reg⟩

/-- Result of one `tokens.issue_token` call: the outcome (signed token,
`expires_at`, session id), the updated issue-limiter bucket of this
client, and the updated registry. -/
structure IssueResult where
  result : Except HttpError (String × Int × String)
  bucket : List ℚ
  registry : TokenRegistry
  deriving Repr

/-- Embedding of `tokens.issue_token`: the client's issue-limiter bucket is
charged first; a denied call fails with the 429 error; otherwise a payload
with the requested scope, `aud = "smallpie"`, `iat = ⌊now⌋` and
`exp = iat + ttl` is signed and registered under the fresh `jti`.  The
session id is `session_id or uuid4().hex`, so an absent or empty session
id is replaced by the fresh one. -/
def issue_token (c : Codec) (il : RateLimiter) (ttl : Int) (scope : String)
    (session_id : Option String) (reg : TokenRegistry) (bucket : List ℚ) (now : ℚ)
    (fresh_jti fresh_session : String) : IssueResult :=
  let pr := il.allow bucket now
  if pr.1 then
    let nowI : Int := ⌊now⌋
    let session := match session_id with
      | some s => if s = "" then fresh_session else s
      | none => fresh_session
    let payload : TokenPayload :=
      ⟨fresh_jti, session, scope, "smallpie", nowI, nowI + ttl⟩
    ⟨.ok (signToken c payload, nowI + ttl, session), pr.2, reg.add fresh_jti payload⟩
  else ⟨.error ⟨429, "Rate limit exceeded for token issue"⟩, pr.2, reg⟩

/-- Embedding of `api.issue_session_token` from the point where the
bootstrap credential has been extracted: a missing bootstrap secret is a
503, a missing or wrong supplied credential a 401, a scope outside
`{"ws", "upload"}` a 400 rejected before `issue_token` runs, and otherwise
the request is handed to `issue_token`. -/
def issue_session_token (c : Codec) (il : RateLimiter) (ttl : Int)
    (bootstrap_secret : String) (supplied : Option String) (scope : String)
    (session_id : Option String) (reg : TokenRegistry) (bucket : List ℚ) (now : ℚ)
    (fresh_jti fresh_session : String) : IssueResult :=
  if bootstrap_secret = "" then ⟨.error ⟨503, "Token issuer not configured"⟩, bucket, reg⟩
  else
    match supplied with
    | none => ⟨.error ⟨401, "Missing bootstrap token"⟩, bucket, reg⟩
    | some s =>
      if s ≠ bootstrap_secret then ⟨.error ⟨401, "Invalid bootstrap token"⟩, bucket, reg⟩
      else if ¬ (scope = "ws" ∨ scope = "upload") then
        ⟨.error ⟨400, "Invalid scope"⟩, bucket, reg⟩
      else issue_token c il ttl scope session_id reg bucket now fresh_jti fresh_session

/-- Splits a character list at every occurrence of `sep`, accumulating the
current field in reverse. -/
def splitOnCharAux (sep : Char) : List Char → List Char → List String
  | [], acc => [String.mk acc.reverse]
  | ch :: cs, acc =>
    if ch = sep then String.mk acc.reverse :: splitOnCharAux sep cs []
    else splitOnCharAux sep cs (ch :: acc)

/-- Splits a string at every occurrence of `sep`. -/
def splitOnChar (sep : Char) (s : String) : List String :=
  splitOnCharAux sep s.data []

/-- Parses an optionally-signed decimal integer. -/
def strToInt? (s : String) : Option Int :=
  let digitsVal : List Char → Option Nat := fun ds =>
    if ds ≠ [] ∧ ds.all Char.isDigit then
      some (ds.foldl (fun a ch => a * 10 + (ch.toNat - 48)) 0)
    else none
  match s.data with
  | '-' :: rest => (digitsVal rest).map (fun n => -(n : Int))
  | ds => (digitsVal ds).map (fun n => (n : Int))

/-- A concrete serialization instance used to evaluate the token service on
closed inputs: payload fields joined by a separator, identity base64, and
a tag prefix standing for the keyed MAC. -/
def testCodec : Codec where
  payloadEncode p :=
    String.intercalate "|" [p.jti, p.session_id, p.scope, p.aud, toString p.iat, toString p.exp]
  b64decode s := s
  jsonDecode s :=
    match splitOnChar '|' s with
    | [j, sid, sc, a, i, e] =>
      match strToInt? i, strToInt? e with
      | some iv, some ev => some ⟨j, sid, sc, a, iv, ev⟩
      | _, _ => none
    | _ => none
  macSign s := "MAC:" ++ s
  sigEncode s := s

theorem validate_token_result_eq (c : Codec) (vl : RateLimiter) (token es : String)
    (reg : TokenRegistry) (bucket : List ℚ) (now : ℚ) :
    (validate_token c vl token es reg bucket now).result
      = if (vl.allow bucket now).1 then (validateChecks c token es reg ⌊now⌋).1
        else .error ⟨429, "Rate limit exceeded"⟩ := by
  simp only [validate_token]
  by_cases h : (vl.allow bucket now).1
  · rw [if_pos h, if_pos h]
  · rw [if_neg h, if_neg h]

theorem validate_token_registry_eq (c : Codec) (vl : RateLimiter) (token es : String)
    (reg : TokenRegistry) (bucket : List ℚ) (now : ℚ) :
    (validate_token c vl token es reg bucket now).registry
      = if (vl.allow bucket now).1 then (validateChecks c token es reg ⌊now⌋).2 else reg := by
  simp only [validate_token]
  by_cases h : (vl.allow bucket now).1
  · rw [if_pos h, if_pos h]
  · rw [if_neg h, if_neg h]

theorem validateChecks_ok (c : Codec) (token es : String) (reg : TokenRegistry) (nowI : Int)
    (p : TokenPayload) (h : (validateChecks c token es reg nowI).1 = .ok p) :
    verifyParse c token = .ok p ∧ p.aud = "smallpie" ∧ p.scope = es
      ∧ ¬ p.exp < nowI ∧ ¬ p.jti = "" ∧ (reg.is_active p.jti nowI).1 = true
      ∧ (validateChecks c token es reg nowI).2 = reg := by
  unfold validateChecks at h ⊢
  rcases hv : verifyParse c token with e | q
  · rw [hv] at h
    simp at h
  · rw [hv] at h
    by_cases h1 : q.aud ≠ "smallpie"
    · simp [h1] at h
    · by_cases h2 : q.scope ≠ es
      · simp [h1, h2] at h
      · by_cases h3 : q.exp < nowI
        · simp [h1, h2, h3] at h
        · by_cases h4 : q.jti = ""
          · simp [h1, h2, h3, h4] at h
          · by_cases h5 : (reg.is_active q.jti nowI).1 = true
            · have hqp : q = p := by
                simpa [h1, h2, h3, h4, h5] using h
              subst hqp
              have hreg2 : (reg.is_active q.jti nowI).2 = reg := by
                unfold TokenRegistry.is_active at h5 ⊢
                rcases hf : reg.active.find? (fun pr => pr.1 == q.jti) with _ | pr
                · rw [hf]
                · rw [hf] at h5 ⊢
                  by_cases he : pr.2.exp < nowI
                  · simp [he] at h5
                  · simp [he]
              refine ⟨rfl, not_not.mp h1, not_not.mp h2, h3, h4, h5, ?_⟩
              simp [h1, h2, h3, h4, h5, hreg2]
            · simp [h1, h2, h3, h4, h5] at h

theorem is_active_true_stable (reg : TokenRegistry) (j : String) (n n' : Int)
    (h : (reg.is_active j n).1 = true) (hreg : ∀ pr ∈ reg.active, ¬ pr.2.exp < n') :
    (reg.is_active j n').1 = true ∧ (reg.is_active j n').2 = reg := by
  unfold TokenRegistry.is_active at h ⊢
  rcases hf : reg.active.find? (fun pr => pr.1 == j) with _ | pr
  · rw [hf] at h
    simp at h
  · rw [hf] at h ⊢
    have hmem : pr ∈ reg.active := List.mem_of_find?_eq_some hf
    have hexp' : ¬ pr.2.exp < n' := hreg pr hmem
    simp [hexp']

theorem is_active_after_revoke (reg : TokenRegistry) (j : String) (n : Int) :
    ((reg.revoke_jti j).is_active j n).1 = false := by
  unfold TokenRegistry.is_active TokenRegistry.revoke_jti
  have hf : ((reg.active.filter (fun p => p.1 != j)).find? (fun p => p.1 == j)) = none := by
    rw [List.find?_eq_none]
    intro x hx
    have hx2 := (List.mem_filter.mp hx).2
    simpa using hx2
  rw [hf]

/-- C10: `validate_token` charges the client's verify-limiter bucket before
any signature, audience, scope, expiry or activity check: the bucket
update is exactly the `allow` update, whatever the token, expected scope
and registry, and an allowed call records exactly one new timestamp
whatever the validation outcome. -/
theorem validate_charges_limiter_first (c : Codec) (vl : RateLimiter)
    (token expected_scope : String) (reg : TokenRegistry) (bucket : List ℚ) (now : ℚ) :
    ((validate_token c vl token expected_scope reg bucket now).bucket
      = (vl.allow bucket now).2)
    ∧ ((vl.allow bucket now).1 = true →
      (validate_token c vl token expected_scope reg bucket now).bucket
        = bucket.dropWhile (fun t => decide (t < now - vl.window_seconds)) ++ [now]) := by
  have h1 : (validate_token c vl token expected_scope reg bucket now).bucket
      = (vl.allow bucket now).2 := by
    simp only [validate_token]
    by_cases h : (vl.allow bucket now).1
    · rw [if_pos h]
    · rw [if_neg h]
  refine ⟨h1, ?_⟩
  intro hall
  rw [h1]
  simp only [RateLimiter.allow] at hall ⊢
  by_cases hfull : vl.max_calls
      ≤ (bucket.dropWhile (fun t => decide (t < now - vl.window_seconds))).length
  · rw [if_pos hfull] at hall
    exact absurd hall (by simp)
  · rw [if_neg hfull]

/-- Witness for C10 on a concrete allowed call with a malformed token. -/
theorem validate_charges_limiter_first_witness :
    (((⟨120, 300⟩ : RateLimiter).allow [] (5 : ℚ)).1 = true)
    ∧ ((validate_token testCodec ⟨120, 300⟩ "bogus" "ws" ⟨[]⟩ [] 5).bucket
      = ([] : List ℚ).dropWhile (fun t => decide (t < (5 : ℚ) - 300)) ++ [5]) :=
  ⟨rfl, (validate_charges_limiter_first testCodec ⟨120, 300⟩ "bogus" "ws" ⟨[]⟩ [] 5).2 rfl⟩

/-- C8 amended: an expired token never validates successfully whatever its
signature, but the failure is the `Token expired` error only when the
signature verifies and audience and scope match; a token whose signature
does not verify fails with `Invalid token signature` instead, because
`_verify` runs before the expiry check. -/
theorem expired_token_always_rejected (c : Codec) (vl : RateLimiter)
    (token expected_scope : String) (reg : TokenRegistry) (bucket : List ℚ) (now : ℚ)
    (payload : TokenPayload) :
    (∀ p, (validate_token c vl token expected_scope reg bucket now).result = .ok p →
      ⌊now⌋ ≤ p.exp)
    ∧ ((vl.allow bucket now).1 = true →
      verifyParse c token = .ok payload →
      payload.aud = "smallpie" → payload.scope = expected_scope → payload.exp < ⌊now⌋ →
      (validate_token c vl token expected_scope reg bucket now).result
        = .error ⟨401, "Token expired"⟩) := by
  constructor
  · intro p hp
    rw [validate_token_result_eq] at hp
    by_cases hall : (vl.allow bucket now).1
    · rw [if_pos hall] at hp
      have hfacts := validateChecks_ok c token expected_scope reg ⌊now⌋ p hp
      exact not_lt.mp hfacts.2.2.2.1
    · rw [if_neg hall] at hp
      exact absurd hp (by simp)
  · intro hall hv ha hs he
    rw [validate_token_result_eq, if_pos hall]
    unfold validateChecks
    rw [hv]
    simp [ha, hs, he]

/-- C8 counterexample: a concrete expired token with an invalid signature
fails with the `Invalid token signature` error, not the `Token expired`
error, even though its (decodable) payload is long expired. -/
theorem expired_bad_signature_counterexample :
    ((validate_token testCodec ⟨120, 300⟩ "j1|s1|ws|smallpie|0|50.WRONG" "ws" ⟨[]⟩ [] 100).result
      = .error ⟨401, "Invalid token signature"⟩)
    ∧ (testCodec.jsonDecode "j1|s1|ws|smallpie|0|50"
      = some ⟨"j1", "s1", "ws", "smallpie", 0, 50⟩)
    ∧ ((50 : Int) < ⌊(100 : ℚ)⌋)
    ∧ ((⟨401, "Invalid token signature"⟩ : HttpError) ≠ ⟨401, "Token expired"⟩) := by
  refine ⟨rfl, rfl, by decide, by decide⟩

/-- Witness for the amended C8 theorem on a concrete well-signed expired
token. -/
theorem expired_token_always_rejected_witness :
    ((validate_token testCodec ⟨120, 300⟩
        (signToken testCodec ⟨"j1", "s1", "ws", "smallpie", 0, 50⟩) "ws" ⟨[]⟩ [] 100).result
      = .error ⟨401, "Token expired"⟩) :=
  (expired_token_always_rejected testCodec ⟨120, 300⟩
      (signToken testCodec ⟨"j1", "s1", "ws", "smallpie", 0, 50⟩) "ws" ⟨[]⟩ [] 100
      ⟨"j1", "s1", "ws", "smallpie", 0, 50⟩).2
    rfl rfl rfl rfl (by decide)

/-- C3 amended: successful validation does not consume the token — the
registry is unchanged, so an immediate second validation of the same token
(within expiry and rate limits) succeeds as well; deactivation requires an
explicit revocation by token id, after which validation fails with the
`Token inactive` error.  One-shot semantics is the caller's job, as
`api.py` does by calling `revoke_token_by_jti` after `validate_token`. -/
theorem validate_does_not_consume (c : Codec) (vl : RateLimiter) (token es : String)
    (reg : TokenRegistry) (bucket : List ℚ) (now now' : ℚ) (p : TokenPayload)
    (h : (validate_token c vl token es reg bucket now).result = .ok p)
    (hb : (vl.allow (validate_token c vl token es reg bucket now).bucket now').1 = true)
    (hexp : ¬ p.exp < ⌊now'⌋)
    (hreg : ∀ pr ∈ reg.active, ¬ pr.2.exp < ⌊now'⌋) :
    ((validate_token c vl token es reg bucket now).registry = reg)
    ∧ ((validate_token c vl token es
        (validate_token c vl token es reg bucket now).registry
        (validate_token c vl token es reg bucket now).bucket now').result = .ok p)
    ∧ ((validate_token c vl token es
        ((validate_token c vl token es reg bucket now).registry.revoke_jti p.jti)
        (validate_token c vl token es reg bucket now).bucket now').result
      = .error ⟨401, "Token inactive"⟩) := by
  rw [validate_token_result_eq] at h
  by_cases hall : (vl.allow bucket now).1
  · rw [if_pos hall] at h
    obtain ⟨hv, ha, hs, _hex, hj, hact, hr2⟩ := validateChecks_ok c token es reg ⌊now⌋ p h
    have hregeq : (validate_token c vl token es reg bucket now).registry = reg := by
      rw [validate_token_registry_eq, if_pos hall, hr2]
    refine ⟨hregeq, ?_, ?_⟩
    · rw [hregeq]
      rw [validate_token_result_eq, if_pos hb]
      unfold validateChecks
      rw [hv]
      have hact' := is_active_true_stable reg p.jti ⌊now⌋ ⌊now'⌋ hact hreg
      simp [ha, hs, hexp, hj, hact'.1]
    · rw [hregeq]
      rw [validate_token_result_eq, if_pos hb]
      unfold validateChecks
      rw [hv]
      have hrev := is_active_after_revoke reg p.jti ⌊now'⌋
      simp [ha, hs, hexp, hj, hrev]
  · rw [if_neg hall] at h
    exact absurd h (by simp)

/-- C3 counterexample: a concretely issued token validates successfully
twice in a row with no intervening revocation — validation does not
deactivate it. -/
theorem validate_twice_succeeds_counterexample :
    ((issue_token testCodec ⟨30, 300⟩ 100 "ws" (some "s1") ⟨[]⟩ [] 100 "j1" "f").registry
      = ⟨[("j1", ⟨"j1", "s1", "ws", "smallpie", 100, 200⟩)]⟩)
    ∧ ((issue_token testCodec ⟨30, 300⟩ 100 "ws" (some "s1") ⟨[]⟩ [] 100 "j1" "f").result
      = .ok (signToken testCodec ⟨"j1", "s1", "ws", "smallpie", 100, 200⟩, 200, "s1"))
    ∧ ((validate_token testCodec ⟨120, 300⟩
        (signToken testCodec ⟨"j1", "s1", "ws", "smallpie", 100, 200⟩) "ws"
        ⟨[("j1", ⟨"j1", "s1", "ws", "smallpie", 100, 200⟩)]⟩ [] 150).result
      = .ok ⟨"j1", "s1", "ws", "smallpie", 100, 200⟩)
    ∧ ((validate_token testCodec ⟨120, 300⟩
        (signToken testCodec ⟨"j1", "s1", "ws", "smallpie", 100, 200⟩) "ws"
        (validate_token testCodec ⟨120, 300⟩
          (signToken testCodec ⟨"j1", "s1", "ws", "smallpie", 100, 200⟩) "ws"
          ⟨[("j1", ⟨"j1", "s1", "ws", "smallpie", 100, 200⟩)]⟩ [] 150).registry
        (validate_token testCodec ⟨120, 300⟩
          (signToken testCodec ⟨"j1", "s1", "ws", "smallpie", 100, 200⟩) "ws"
          ⟨[("j1", ⟨"j1", "s1", "ws", "smallpie", 100, 200⟩)]⟩ [] 150).bucket 160).result
      = .ok ⟨"j1", "s1", "ws", "smallpie", 100, 200⟩) := by
  refine ⟨rfl, rfl, rfl, ?_⟩
  have hreg : (validate_token testCodec ⟨120, 300⟩
      (signToken testCodec ⟨"j1", "s1", "ws", "smallpie", 100, 200⟩) "ws"
      ⟨[("j1", ⟨"j1", "s1", "ws", "smallpie", 100, 200⟩)]⟩ [] 150).registry
      = ⟨[("j1", ⟨"j1", "s1", "ws", "smallpie", 100, 200⟩)]⟩ := rfl
  have hbucket : (validate_token testCodec ⟨120, 300⟩
      (signToken testCodec ⟨"j1", "s1", "ws", "smallpie", 100, 200⟩) "ws"
      ⟨[("j1", ⟨"j1", "s1", "ws", "smallpie", 100, 200⟩)]⟩ [] 150).bucket = [150] := rfl
  rw [hreg, hbucket, validate_token_result_eq]
  have hallow : ((⟨120, 300⟩ : RateLimiter).allow [(150 : ℚ)] 160).1 = true := by
    simp only [RateLimiter.allow]
    rw [List.dropWhile_cons_of_neg (by norm_num)]
    norm_num
  rw [if_pos hallow]
  rfl

/-- Witness for the amended C3 theorem on the concretely issued token. -/
theorem validate_does_not_consume_witness :
    ((validate_token testCodec ⟨120, 300⟩
        (signToken testCodec ⟨"j1", "s1", "ws", "smallpie", 100, 200⟩) "ws"
        ⟨[("j1", ⟨"j1", "s1", "ws", "smallpie", 100, 200⟩)]⟩ [] 150).registry
      = ⟨[("j1", ⟨"j1", "s1", "ws", "smallpie", 100, 200⟩)]⟩)
    ∧ ((validate_token testCodec ⟨120, 300⟩
        (signToken testCodec ⟨"j1", "s1", "ws", "smallpie", 100, 200⟩) "ws"
        (validate_token testCodec ⟨120, 300⟩
          (signToken testCodec ⟨"j1", "s1", "ws", "smallpie", 100, 200⟩) "ws"
          ⟨[("j1", ⟨"j1", "s1", "ws", "smallpie", 100, 200⟩)]⟩ [] 150).registry
        (validate_token testCodec ⟨120, 300⟩
          (signToken testCodec ⟨"j1", "s1", "ws", "smallpie", 100, 200⟩) "ws"
          ⟨[("j1", ⟨"j1", "s1", "ws", "smallpie", 100, 200⟩)]⟩ [] 150).bucket 160).result
      = .ok ⟨"j1", "s1", "ws", "smallpie", 100, 200⟩)
    ∧ ((validate_token testCodec ⟨120, 300⟩
        (signToken testCodec ⟨"j1", "s1", "ws", "smallpie", 100, 200⟩) "ws"
        ((validate_token testCodec ⟨120, 300⟩
          (signToken testCodec ⟨"j1", "s1", "ws", "smallpie", 100, 200⟩) "ws"
          ⟨[("j1", ⟨"j1", "s1", "ws", "smallpie", 100, 200⟩)]⟩ [] 150).registry.revoke_jti
            (⟨"j1", "s1", "ws", "smallpie", 100, 200⟩ : TokenPayload).jti)
        (validate_token testCodec ⟨120, 300⟩
          (signToken testCodec ⟨"j1", "s1", "ws", "smallpie", 100, 200⟩) "ws"
          ⟨[("j1", ⟨"j1", "s1", "ws", "smallpie", 100, 200⟩)]⟩ [] 150).bucket 160).result
      = .error ⟨401, "Token inactive"⟩) := by
  have hb : ((⟨120, 300⟩ : RateLimiter).allow
      (validate_token testCodec ⟨120, 300⟩
        (signToken testCodec ⟨"j1", "s1", "ws", "smallpie", 100, 200⟩) "ws"
        ⟨[("j1", ⟨"j1", "s1", "ws", "smallpie", 100, 200⟩)]⟩ [] 150).bucket 160).1 = true := by
    have hbucket : (validate_token testCodec ⟨120, 300⟩
        (signToken testCodec ⟨"j1", "s1", "ws", "smallpie", 100, 200⟩) "ws"
        ⟨[("j1", ⟨"j1", "s1", "ws", "smallpie", 100, 200⟩)]⟩ [] 150).bucket = [150] := rfl
    rw [hbucket]
    simp only [RateLimiter.allow]
    rw [List.dropWhile_cons_of_neg (by norm_num)]
    norm_num
  exact validate_does_not_consume testCodec ⟨120, 300⟩
    (signToken testCodec ⟨"j1", "s1", "ws", "smallpie", 100, 200⟩) "ws"
    ⟨[("j1", ⟨"j1", "s1", "ws", "smallpie", 100, 200⟩)]⟩ [] 150 160
    ⟨"j1", "s1", "ws", "smallpie", 100, 200⟩ rfl hb (by decide) (by decide)

/-- C7 amended: the scope values the issuance endpoint recognizes are `ws`
(the streaming scope) and `upload` — not the literal `stream`; any other
scope, once the bootstrap credential has been accepted, is rejected with
the 400 `Invalid scope` error before `issue_token` runs, with no change to
the registry or the issue-limiter bucket, and every accepted issuance used
one of the two recognized scopes. -/
theorem issue_scope_gate (c : Codec) (il : RateLimiter) (ttl : Int) (secret : String)
    (supplied : Option String) (scope : String) (session_id : Option String)
    (reg : TokenRegistry) (bucket : List ℚ) (now : ℚ) (fresh_jti fresh_session : String)
    (hsec : ¬ secret = "") (hsup : supplied = some secret)
    (hscope : ¬ (scope = "ws" ∨ scope = "upload")) :
    (((issue_session_token c il ttl secret supplied scope session_id reg bucket now fresh_jti
        fresh_session).result = .error ⟨400, "Invalid scope"⟩)
      ∧ ((issue_session_token c il ttl secret supplied scope session_id reg bucket now fresh_jti
        fresh_session).bucket = bucket)
      ∧ ((issue_session_token c il ttl secret supplied scope session_id reg bucket now fresh_jti
        fresh_session).registry = reg))
    ∧ (∀ sc r, (issue_session_token c il ttl secret supplied sc session_id reg bucket now
        fresh_jti fresh_session).result = .ok r → sc = "ws" ∨ sc = "upload") := by
  subst hsup
  constructor
  · simp only [issue_session_token]
    rw [if_neg hsec]
    rw [if_neg (by simp : ¬ secret ≠ secret)]
    rw [if_pos hscope]
    exact ⟨rfl, rfl, rfl⟩
  · intro sc r hr
    by_cases hsc : sc = "ws" ∨ sc = "upload"
    · exact hsc
    · simp only [issue_session_token] at hr
      rw [if_neg hsec] at hr
      rw [if_neg (by simp : ¬ secret ≠ secret)] at hr
      rw [if_pos hsc] at hr
      exact absurd hr (by simp)

/-- C7 counterexample: the endpoint accepts the scope `ws`, which is not
one of the spec's `stream`/`upload` pair, and it rejects the literal scope
`stream` with the 400 `Invalid scope` error. -/
theorem scope_ws_accepted_counterexample :
    ((issue_session_token testCodec ⟨30, 300⟩ 600 "sec" (some "sec") "ws" none ⟨[]⟩ [] 100
        "j1" "s1").result
      = .ok (signToken testCodec ⟨"j1", "s1", "ws", "smallpie", 100, 700⟩, 700, "s1"))
    ∧ (¬ ("ws" = "stream" ∨ "ws" = "upload"))
    ∧ ((issue_session_token testCodec ⟨30, 300⟩ 600 "sec" (some "sec") "stream" none ⟨[]⟩ [] 100
        "j1" "s1").result
      = .error ⟨400, "Invalid scope"⟩) :=
  ⟨rfl, by decide, rfl⟩

/-- Witness for the amended C7 theorem at the unrecognized scope `stream`. -/
theorem issue_scope_gate_witness :
    (((issue_session_token testCodec ⟨30, 300⟩ 600 "sec" (some "sec") "stream" none ⟨[]⟩ []
        100 "j1" "s1").result = .error ⟨400, "Invalid scope"⟩)
      ∧ ((issue_session_token testCodec ⟨30, 300⟩ 600 "sec" (some "sec") "stream" none ⟨[]⟩ []
        100 "j1" "s1").bucket = [])
      ∧ ((issue_session_token testCodec ⟨30, 300⟩ 600 "sec" (some "sec") "stream" none ⟨[]⟩ []
        100 "j1" "s1").registry = ⟨[]⟩))
    ∧ (∀ sc r, (issue_session_token testCodec ⟨30, 300⟩ 600 "sec" (some "sec") sc none ⟨[]⟩ []
        100 "j1" "s1").result = .ok r → sc = "ws" ∨ sc = "upload") :=
  issue_scope_gate testCodec ⟨30, 300⟩ 600 "sec" (some "sec") "stream" none ⟨[]⟩ [] 100
    "j1" "s1" (by decide) rfl (by decide)

end Smallpie
